import Mathlib

/-!
Verification of the volatility-estimator repository.

Shallow embedding of `src/EWMA.py` and `src/MacroEventAnalyzer.py`.
Floating-point values are modelled as `Option ℚ`: `none` is the
missing-value marker (NaN), `some x` a finite value.  The transcendental
functions `np.log` / `np.sqrt` are taken as parameters `log sqrt : ℚ → ℚ`
applied on their real domain (`np.log` outside `(0, ∞)` and `np.sqrt`
outside `[0, ∞)` produce the missing marker; float infinities are outside
this model).  Dates (pandas timestamps) are modelled as integers (days).
-/

namespace Vol

/-- A float value: `none` is NaN, `some x` a finite rational. -/
abbrev FVal := Option ℚ

/-- NaN-propagating addition. -/
def oadd : FVal → FVal → FVal
  | some a, some b => some (a + b)
  | _, _ => none

/-- NaN-propagating subtraction. -/
def osub : FVal → FVal → FVal
  | some a, some b => some (a - b)
  | _, _ => none

/-- NaN-propagating multiplication. -/
def omul : FVal → FVal → FVal
  | some a, some b => some (a * b)
  | _, _ => none

/-- NaN-propagating division; division by zero gives the missing marker. -/
def odiv : FVal → FVal → FVal
  | some a, some b => if b = 0 then none else some (a / b)
  | _, _ => none

/-- `np.log`, with the actual logarithm abstracted as `log : ℚ → ℚ` on
positive arguments; nonpositive arguments give the missing marker. -/
def nlog (log : ℚ → ℚ) : FVal → FVal
  | some x => if 0 < x then some (log x) else none
  | none => none

/-- `np.sqrt`, with the actual square root abstracted as `sqrt : ℚ → ℚ` on
nonnegative arguments; negative arguments give the missing marker. -/
def nsqrt (sqrt : ℚ → ℚ) : FVal → FVal
  | some x => if 0 ≤ x then some (sqrt x) else none
  | none => none

/-- `Series.shift(1)`: every value moves one slot later, the first slot
becomes the missing marker, the last value falls off. -/
def shift1 (l : List FVal) : List FVal := none :: l.dropLast

/-- Positional access into a series, `none` (NaN) out of range;
`l.iloc[i]` of the Python code. -/
def og (l : List FVal) (i : ℕ) : FVal := (l[i]?).getD none

/-- `(price_data.Close / price_data.Close.shift(1)).apply(np.log)`
(src/EWMA.py line 29). -/
def log_return (log : ℚ → ℚ) (closes : List FVal) : List FVal :=
  (List.zipWith odiv closes (shift1 closes)).map (nlog log)

/-- `squared_returns = log_return ** 2` (src/EWMA.py line 32). -/
def squared_returns (log : ℚ → ℚ) (closes : List FVal) : List FVal :=
  (log_return log closes).map (fun r => omul r r)

/-- State of the EWMA loop of src/EWMA.py lines 35-41: the
`squared_returns` series and the `ewma_var` series the loop writes into
(initialized as `squared_returns.copy()`). -/
structure EwmaState where
  squared : List FVal
  var : List FVal
deriving DecidableEq

/-- One iteration of the loop body (src/EWMA.py lines 38-41): if neither
`squared_returns.iloc[i-1]` nor `ewma_var.iloc[i-1]` is NaN, write
`lambda * ewma_var.iloc[i-1] + (1-lambda) * squared_returns.iloc[i]`
into slot `i` of `ewma_var`; otherwise do nothing. -/
def ewmaStep (lam : ℚ) (s : EwmaState) (i : ℕ) : EwmaState :=
  if ¬(og s.squared (i - 1)).isNone ∧ ¬(og s.var (i - 1)).isNone then
    { s with var := s.var.set i (oadd (omul (some lam) (og s.var (i - 1)))
        (omul (some (1 - lam)) (og s.squared i))) }
  else s

/-- The loop `for i in range(1, len(squared_returns))` run on the initial
state `ewma_var = squared_returns.copy()`. -/
def ewmaScan (lam : ℚ) (sq : List FVal) : EwmaState :=
  (List.range' 1 (sq.length - 1)).foldl (ewmaStep lam) ⟨sq, sq⟩

/-- The `ewma_var` series after the loop. -/
def ewmaVar (lam : ℚ) (sq : List FVal) : List FVal := (ewmaScan lam sq).var

/-- Exceptions raised by the Python code in this model. -/
inductive PyError where
  | invalidParameter
  | keyError
deriving DecidableEq

/-- `get_estimator` of src/EWMA.py: EWMA variance scan over the squared
log returns, then `sqrt(ewma_var) * sqrt(trading_periods)`, with NaN
entries dropped when `clean`.  The source performs no parameter
validation and cannot raise, so the result is always `.ok`. -/
def get_estimator (log sqrt : ℚ → ℚ) (closes : List FVal) (lam tp : ℚ)
    (clean : Bool) : Except PyError (List FVal) :=
  let sq := squared_returns log closes
  let v := ewmaVar lam sq
  let result := v.map (fun x => omul (nsqrt sqrt x) (some (sqrt tp)))
  if clean then .ok (result.filter (fun x => !x.isNone)) else .ok result

/-- The analyzer of src/MacroEventAnalyzer.py: a price series (date,
close) with DatetimeIndex and a precomputed volatility series. -/
structure MacroEventAnalyzer where
  price_data : List (ℤ × FVal)
  volatility : List (ℤ × FVal)

/-- `calculate_log_returns` (src/MacroEventAnalyzer.py line 35):
`np.log(Close / Close.shift(1))`, keeping the date index. -/
def calculate_log_returns (log : ℚ → ℚ) (a : MacroEventAnalyzer) :
    List (ℤ × FVal) :=
  List.zipWith (fun p c => (p.1, nlog log (odiv p.2 c)))
    a.price_data (shift1 (a.price_data.map Prod.snd))

/-- `Series.std()`: sample standard deviation with `ddof = 1`, skipping
NaN entries; NaN when fewer than 2 valid values remain. -/
def std_sample (sqrt : ℚ → ℚ) (xs : List FVal) : FVal :=
  let vs := xs.filterMap id
  if vs.length < 2 then none
  else
    let m := vs.sum / (vs.length : ℚ)
    some (sqrt ((vs.map (fun x => (x - m) ^ 2)).sum / ((vs.length : ℚ) - 1)))

/-- The date-window mask plus selection of lines 53-54 of
src/MacroEventAnalyzer.py: the log returns whose date lies in the
inclusive window (NaN entries included, as in the source). -/
def windowReturns (log : ℚ → ℚ) (a : MacroEventAnalyzer)
    (start_date end_date : ℤ) : List (ℤ × FVal) :=
  (calculate_log_returns log a).filter
    (fun p => decide (start_date ≤ p.1) && decide (p.1 ≤ end_date))

/-- `realized_volatility_window` (src/MacroEventAnalyzer.py lines 37-61):
NaN when the window holds fewer than 2 log-return points, otherwise
`std() * np.sqrt(252)`. -/
def realized_volatility_window (log sqrt : ℚ → ℚ) (a : MacroEventAnalyzer)
    (start_date end_date : ℤ) : FVal :=
  if (windowReturns log a start_date end_date).length < 2 then none
  else omul (std_sample sqrt ((windowReturns log a start_date end_date).map Prod.snd))
    (some (sqrt 252))

/-- An input event: `{date, name, type}`, with `type` optional. -/
structure EventSpec where
  date : ℤ
  name : String
  etype : Option String
deriving DecidableEq

/-- One row of the frame built by `event_impact_analysis`. -/
structure EventImpactRecord where
  event_date : ℤ
  event_name : String
  event_type : String
  pre_volatility : FVal
  post_volatility : FVal
  volatility_change : FVal
  volatility_change_pct : FVal
  pre_window_days : ℤ
  post_window_days : ℤ
deriving DecidableEq

/-- The loop body of `event_impact_analysis` (src/MacroEventAnalyzer.py
lines 88-109): pre/post realized volatility around the event date, their
difference, and the percentage change guarded by `pre_vol != 0` (note a
NaN `pre_vol` also takes the `!= 0` branch, as in Python). -/
def mkImpactRecord (log sqrt : ℚ → ℚ) (a : MacroEventAnalyzer)
    (pre_window_days post_window_days : ℤ) (e : EventSpec) :
    EventImpactRecord :=
  let event_date := e.date
  let pre_start := event_date - pre_window_days
  let post_end := event_date + post_window_days
  let pre_vol := realized_volatility_window log sqrt a pre_start event_date
  let post_vol := realized_volatility_window log sqrt a event_date post_end
  let vol_change := osub post_vol pre_vol
  let vol_change_pct :=
    if pre_vol ≠ some 0 then omul (odiv vol_change pre_vol) (some 100)
    else none
  { event_date := event_date
    event_name := e.name
    event_type := e.etype.getD "unknown"
    pre_volatility := pre_vol
    post_volatility := post_vol
    volatility_change := vol_change
    volatility_change_pct := vol_change_pct
    pre_window_days := pre_window_days
    post_window_days := post_window_days }

/-- The `sort_values(event_date)` comparison on two rows. -/
def byDate (r s : EventImpactRecord) : Bool :=
  decide (r.event_date ≤ s.event_date)

/-- `event_impact_analysis` (src/MacroEventAnalyzer.py lines 63-111):
builds one record per event, then `pd.DataFrame(results)
.sort_values(event_date)`.  On an empty event list the frame has no
columns at all, so `sort_values` raises `KeyError`; otherwise the rows
are sorted ascending by `event_date`.  The source performs no
validation of the window-day parameters. -/
def event_impact_analysis (log sqrt : ℚ → ℚ) (a : MacroEventAnalyzer)
    (events : List EventSpec) (pre_window_days post_window_days : ℤ) :
    Except PyError (List EventImpactRecord) :=
  let results := events.map (mkImpactRecord log sqrt a pre_window_days post_window_days)
  if results.isEmpty then .error .keyError
  else .ok (results.mergeSort byDate)

/-- One value of the summary dict of `event_summary_statistics`. -/
structure EventTypeSummary where
  count : ℕ
  avg_pre_vol : FVal
  avg_post_vol : FVal
  avg_vol_change : FVal
  avg_vol_change_pct : FVal
  vol_increase_frequency : ℚ
deriving DecidableEq

/-- `Series.mean()`: mean of the non-NaN values, NaN when none remain. -/
def omean (xs : List FVal) : FVal :=
  if (xs.filterMap id).isEmpty then none
  else some ((xs.filterMap id).sum / ((xs.filterMap id).length : ℚ))

/-- `Series.unique()`: the distinct values in order of first appearance. -/
def uniqueAux : List String → List String → List String
  | _, [] => []
  | seen, t :: ts =>
    if t ∈ seen then uniqueAux seen ts else t :: uniqueAux (t :: seen) ts

/-- `Series.unique()` with no values seen yet. -/
def uniqueVals (l : List String) : List String := uniqueAux [] l

/-- `subset = event_impacts_df[event_impacts_df.event_type == event_type]`
(src/MacroEventAnalyzer.py line 131). -/
def subsetFor (recs : List EventImpactRecord) (t : String) :
    List EventImpactRecord :=
  recs.filter (fun r => decide (r.event_type = t))

/-- `(subset.volatility_change > 0).sum()`: how many rows have a strictly
positive change (a NaN change compares as not greater than 0, as in
pandas). -/
def posChangeCount (l : List EventImpactRecord) : ℕ :=
  (l.filter (fun r => match r.volatility_change with
    | some x => decide (0 < x)
    | none => false)).length

/-- `event_summary_statistics` (src/MacroEventAnalyzer.py lines 113-141):
one summary per distinct `event_type`, with NaN-skipping means and
`vol_increase_frequency = count(volatility_change > 0) / count`. -/
def event_summary_statistics (recs : List EventImpactRecord) :
    List (String × EventTypeSummary) :=
  (uniqueVals (recs.map (·.event_type))).map (fun t =>
    (t, { count := (subsetFor recs t).length
          avg_pre_vol := omean ((subsetFor recs t).map (·.pre_volatility))
          avg_post_vol := omean ((subsetFor recs t).map (·.post_volatility))
          avg_vol_change := omean ((subsetFor recs t).map (·.volatility_change))
          avg_vol_change_pct := omean ((subsetFor recs t).map (·.volatility_change_pct))
          vol_increase_frequency :=
            (posChangeCount (subsetFor recs t) : ℚ) / ((subsetFor recs t).length : ℚ) }))

/-! ### The EWMA loop as a recurrence

`recVar` restates the net effect of the in-place loop as a direct
recursion on the index, proved equal to the loop below. -/

/-- Value of `ewma_var.iloc[i]` after the loop: slot `0` keeps its
initial copy; slot `i+1` is updated from slot `i` when both
`squared_returns.iloc[i]` and `ewma_var.iloc[i]` are valid, and
otherwise keeps its initial copy `squared_returns.iloc[i+1]`. -/
def recVar (lam : ℚ) (sq : List FVal) : ℕ → FVal
  | 0 => og sq 0
  | i + 1 =>
    if ¬(og sq i).isNone ∧ ¬(recVar lam sq i).isNone then
      oadd (omul (some lam) (recVar lam sq i)) (omul (some (1 - lam)) (og sq (i + 1)))
    else og sq (i + 1)

lemma oadd_none (x : FVal) : oadd x none = none := by cases x <;> rfl

lemma omul_none (x : FVal) : omul x none = none := by cases x <;> rfl

lemma og_set_self {l : List FVal} {i : ℕ} (a : FVal) (h : i < l.length) :
    og (l.set i a) i = a := by
  simp [og, List.getElem?_set_self h]

lemma og_set_ne {l : List FVal} {i j : ℕ} (a : FVal) (h : i ≠ j) :
    og (l.set i a) j = og l j := by
  simp [og, List.getElem?_set_ne h]

lemma og_none_of_le {l : List FVal} {j : ℕ} (h : l.length ≤ j) :
    og l j = none := by
  simp [og, List.getElem?_eq_none h]

lemma recVar_none_of_le (lam : ℚ) (sq : List FVal) {j : ℕ}
    (h : sq.length ≤ j) : recVar lam sq j = none := by
  cases j with
  | zero => exact og_none_of_le h
  | succ i =>
    have hs : og sq (i + 1) = none := og_none_of_le h
    rw [recVar]
    split
    · rw [hs, omul_none, oadd_none]
    · exact hs

lemma ewmaScan_invariant (lam : ℚ) (sq : List FVal) (k : ℕ) :
    ((List.range' 1 k).foldl (ewmaStep lam) ⟨sq, sq⟩).squared = sq ∧
    ((List.range' 1 k).foldl (ewmaStep lam) ⟨sq, sq⟩).var.length = sq.length ∧
    (∀ j, j ≤ k →
      og ((List.range' 1 k).foldl (ewmaStep lam) ⟨sq, sq⟩).var j = recVar lam sq j) ∧
    (∀ j, k < j →
      og ((List.range' 1 k).foldl (ewmaStep lam) ⟨sq, sq⟩).var j = og sq j) := by
  induction k with
  | zero =>
    refine ⟨rfl, rfl, ?_, fun j _ => rfl⟩
    intro j hj
    have hj0 : j = 0 := by omega
    subst hj0
    rfl
  | succ k ih =>
    obtain ⟨hsq, hlen, hle, hgt⟩ := ih
    have hconcat : List.range' 1 (k + 1) = List.range' 1 k ++ [k + 1] := by
      simpa [Nat.add_comm] using @List.range'_concat 1 1 k
    rw [hconcat, List.foldl_concat]
    set s := (List.range' 1 k).foldl (ewmaStep lam) (⟨sq, sq⟩ : EwmaState) with hs
    have hsqk : og s.squared (k + 1 - 1) = og sq k := by
      rw [Nat.add_sub_cancel, hsq]
    have hvark : og s.var (k + 1 - 1) = recVar lam sq k := by
      rw [Nat.add_sub_cancel]
      exact hle k le_rfl
    by_cases hc : ¬(og sq k).isNone ∧ ¬(recVar lam sq k).isNone
    · have hc' : ¬(og s.squared (k + 1 - 1)).isNone ∧
          ¬(og s.var (k + 1 - 1)).isNone := by
        rw [hsqk, hvark]
        exact hc
      have hstepSq : (ewmaStep lam s (k + 1)).squared = sq := by
        unfold ewmaStep
        rw [if_pos hc']
        exact hsq
      have hstepVar : (ewmaStep lam s (k + 1)).var = s.var.set (k + 1)
          (oadd (omul (some lam) (recVar lam sq k))
            (omul (some (1 - lam)) (og sq (k + 1)))) := by
        unfold ewmaStep
        rw [if_pos hc']
        show s.var.set (k + 1) _ = _
        rw [hvark, hsq]
      refine ⟨hstepSq, ?_, ?_, ?_⟩
      · rw [hstepVar, List.length_set]
        exact hlen
      · intro j hj
        rw [hstepVar]
        rcases Nat.lt_or_ge j (k + 1) with hjk | hjk
        · have hne : k + 1 ≠ j := by omega
          rw [og_set_ne _ hne]
          exact hle j (by omega)
        · have hj1 : j = k + 1 := by omega
          subst hj1
          rcases Nat.lt_or_ge (k + 1) s.var.length with hl | hl
          · rw [og_set_self _ hl, recVar, if_pos hc]
          · rw [List.set_eq_of_length_le hl]
            have hnone : og sq (k + 1) = none := og_none_of_le (by omega)
            rw [hgt (k + 1) (by omega), hnone, recVar, if_pos hc, hnone,
              omul_none, oadd_none]
      · intro j hj
        rw [hstepVar]
        have hne : k + 1 ≠ j := by omega
        rw [og_set_ne _ hne]
        exact hgt j (by omega)
    · have hc' : ¬(¬(og s.squared (k + 1 - 1)).isNone ∧
          ¬(og s.var (k + 1 - 1)).isNone) := by
        rw [hsqk, hvark]
        exact hc
      have hstep : ewmaStep lam s (k + 1) = s := by
        unfold ewmaStep
        rw [if_neg hc']
      rw [hstep]
      refine ⟨hsq, hlen, ?_, fun j hj => hgt j (by omega)⟩
      intro j hj
      rcases Nat.lt_or_ge j (k + 1) with hjk | hjk
      · exact hle j (by omega)
      · have hj1 : j = k + 1 := by omega
        subst hj1
        rw [hgt (k + 1) (by omega), recVar, if_neg hc]

lemma ewmaVar_length (lam : ℚ) (sq : List FVal) :
    (ewmaVar lam sq).length = sq.length :=
  (ewmaScan_invariant lam sq (sq.length - 1)).2.1

lemma ewmaVar_eq_recVar (lam : ℚ) (sq : List FVal) (j : ℕ) :
    og (ewmaVar lam sq) j = recVar lam sq j := by
  rcases Nat.lt_or_ge j sq.length with h | h
  · exact (ewmaScan_invariant lam sq (sq.length - 1)).2.2.1 j (by omega)
  · rw [recVar_none_of_le lam sq h]
    exact og_none_of_le (by rw [ewmaVar_length]; omega)

/-! ### Concrete inputs for witnesses and counterexamples

The claims settled on concrete inputs depend only on the missing-value
structure of the results, never on the value of the transcendental
functions, so the abstract `log` / `sqrt` parameters are instantiated
with the identity (which agrees with `np.sqrt` at the one point where a
definite value is used, `sqrt 0 = 0`). -/

/-- Identity instantiation of the abstract transcendental parameters. -/
def idq : ℚ → ℚ := id

lemma idq_apply (x : ℚ) : idq x = x := rfl

/-- Close series with a NaN gap in the middle. -/
def closesGap : List FVal := [some 1, some 1, none, some 1, some 1]

/-- Analyzer over three constant closes on days 0, 1, 2. -/
def analyzerSmall : MacroEventAnalyzer :=
  ⟨[(0, some 1), (1, some 1), (2, some 1)], []⟩

/-- Analyzer over four constant closes on days 0..3 (so every realized
volatility over a window with 2 valid returns is exactly 0). -/
def analyzerConst : MacroEventAnalyzer :=
  ⟨[(0, some 5), (1, some 5), (2, some 5), (3, some 5)], []⟩

/-- A single event on day 1. -/
def eventsOne : List EventSpec := [⟨1, "CPI Release", some "inflation"⟩]

/-- A single event on day 2. -/
def eventsConst : List EventSpec := [⟨2, "FOMC Meeting", some "monetary_policy"⟩]

/-- Two events given in descending date order. -/
def eventsUnordered : List EventSpec :=
  [⟨2, "FOMC Meeting", some "monetary_policy"⟩, ⟨1, "CPI Release", some "inflation"⟩]

/-- The record `event_impact_analysis` produces for `eventsConst` over
`analyzerConst` with 30-day windows. -/
def recConst : EventImpactRecord :=
  ⟨2, "FOMC Meeting", "monetary_policy", some 0, some 0, some 0, none, 30, 30⟩

/-- The record `event_impact_analysis` produces for `eventsOne` over
`analyzerSmall` with 30-day windows. -/
def recSmall : EventImpactRecord :=
  ⟨1, "CPI Release", "inflation", none, some 0, none, none, 30, 30⟩

/-- Two impact records of different types; the first type has only
missing pre-volatilities. -/
def recsMixed : List EventImpactRecord :=
  [⟨1, "a", "t", none, none, none, none, 30, 30⟩,
   ⟨0, "c", "u", some 2, some 1, some (-1), some (-50), 30, 30⟩]

/-! ### Concrete evaluations shared by witnesses and counterexamples -/

lemma clr_small : calculate_log_returns idq analyzerSmall =
    [(0, none), (1, some 1), (2, some 1)] := by
  norm_num [calculate_log_returns, analyzerSmall, shift1, idq_apply, odiv, nlog]

lemma rvw_small_pre : realized_volatility_window idq idq analyzerSmall (-29) 1 = none := by
  norm_num [realized_volatility_window, windowReturns, clr_small, std_sample, omul,
    List.filterMap_cons, List.filterMap_nil]

lemma rvw_small_post : realized_volatility_window idq idq analyzerSmall 1 31 = some 0 := by
  norm_num [realized_volatility_window, windowReturns, clr_small, std_sample, omul,
    idq_apply, List.filterMap_cons, List.filterMap_nil]

lemma rvw_small_badpre : realized_volatility_window idq idq analyzerSmall 6 1 = none := by
  norm_num [realized_volatility_window, windowReturns, clr_small]

lemma rec_small_eq :
    mkImpactRecord idq idq analyzerSmall 30 30 ⟨1, "CPI Release", some "inflation"⟩ =
      recSmall := by
  norm_num [mkImpactRecord, recSmall, rvw_small_pre, rvw_small_post, osub, odiv, omul]

lemma eia_small :
    event_impact_analysis idq idq analyzerSmall eventsOne 30 30 = .ok [recSmall] := by
  norm_num [event_impact_analysis, eventsOne, rec_small_eq, List.mergeSort_singleton]

lemma clr_const : calculate_log_returns idq analyzerConst =
    [(0, none), (1, some 1), (2, some 1), (3, some 1)] := by
  norm_num [calculate_log_returns, analyzerConst, shift1, idq_apply, odiv, nlog]

lemma rvw_const_pre : realized_volatility_window idq idq analyzerConst (-28) 2 = some 0 := by
  norm_num [realized_volatility_window, windowReturns, clr_const, std_sample, omul,
    idq_apply, List.filterMap_cons, List.filterMap_nil]

lemma rvw_const_post : realized_volatility_window idq idq analyzerConst 2 32 = some 0 := by
  norm_num [realized_volatility_window, windowReturns, clr_const, std_sample, omul,
    idq_apply, List.filterMap_cons, List.filterMap_nil]

lemma rec_const_eq :
    mkImpactRecord idq idq analyzerConst 30 30 ⟨2, "FOMC Meeting", some "monetary_policy"⟩ =
      recConst := by
  norm_num [mkImpactRecord, recConst, rvw_const_pre, rvw_const_post, osub, odiv, omul]

lemma eia_const :
    event_impact_analysis idq idq analyzerConst eventsConst 30 30 = .ok [recConst] := by
  norm_num [event_impact_analysis, eventsConst, rec_const_eq, List.mergeSort_singleton]

/-- Concrete squared returns of the two-point close series. -/
lemma sqret_two : squared_returns idq [some 1, some 2] = [none, some 4] := by
  norm_num [squared_returns, log_return, shift1, idq_apply, odiv, nlog, omul]

/-- On the two-point series the EWMA loop body is skipped (the first
squared return is NaN), so the variance series equals its seed copy. -/
lemma ewvar_two : ewmaVar 2 [none, some 4] = [none, some 4] := by
  norm_num [ewmaVar, ewmaScan, ewmaStep, og, List.range']

lemma byDate_trans (a b c : EventImpactRecord) (hab : byDate a b = true)
    (hbc : byDate b c = true) : byDate a c = true :=
  decide_eq_true (le_trans (of_decide_eq_true hab) (of_decide_eq_true hbc))

lemma byDate_total (a b : EventImpactRecord) :
    (byDate a b || byDate b a) = true := by
  rcases Int.le_total a.event_date b.event_date with h | h
  · simp [byDate, h]
  · simp [byDate, h]

/-- Every record returned by `event_impact_analysis` is the record built
for one of the input events. -/
lemma mem_event_impact_analysis {log sqrt : ℚ → ℚ} {a : MacroEventAnalyzer}
    {events : List EventSpec} {pw pq : ℤ} {recs : List EventImpactRecord}
    (hok : event_impact_analysis log sqrt a events pw pq = .ok recs)
    {r : EventImpactRecord} (hr : r ∈ recs) :
    ∃ ev, ev ∈ events ∧ r = mkImpactRecord log sqrt a pw pq ev := by
  simp only [event_impact_analysis] at hok
  split at hok
  · cases hok
  · cases hok
    have hrm : r ∈ events.map (mkImpactRecord log sqrt a pw pq) :=
      (List.mergeSort_perm _ byDate).mem_iff.mp hr
    obtain ⟨ev, hev, heq⟩ := List.mem_map.mp hrm
    exact ⟨ev, hev, heq.symm⟩

lemma map_fst_pair {β : Type} (u : List String) (f : String → β) :
    (u.map (fun t => (t, f t))).map Prod.fst = u := by
  induction u with
  | nil => rfl
  | cons t ts ih => simp [ih]

lemma mem_uniqueAux (x : String) :
    ∀ (l seen : List String), x ∈ uniqueAux seen l ↔ x ∈ l ∧ x ∉ seen := by
  intro l
  induction l with
  | nil =>
    intro seen
    simp [uniqueAux]
  | cons t ts ih =>
    intro seen
    by_cases ht : t ∈ seen
    · simp only [uniqueAux]
      rw [if_pos ht, ih seen, List.mem_cons]
      constructor
      · rintro ⟨hx, hns⟩
        exact ⟨Or.inr hx, hns⟩
      · rintro ⟨rfl | hx, hns⟩
        · exact absurd ht hns
        · exact ⟨hx, hns⟩
    · simp only [uniqueAux]
      rw [if_neg ht]
      simp only [List.mem_cons]
      constructor
      · rintro (rfl | hx)
        · exact ⟨Or.inl rfl, ht⟩
        · obtain ⟨h1, h2⟩ := (ih (t :: seen)).mp hx
          exact ⟨Or.inr h1, fun hs => h2 (List.mem_cons_of_mem _ hs)⟩
      · rintro ⟨rfl | hx, hns⟩
        · exact Or.inl rfl
        · by_cases hxt : x = t
          · exact Or.inl hxt
          · refine Or.inr ((ih (t :: seen)).mpr ⟨hx, ?_⟩)
            intro hs
            rcases List.mem_cons.mp hs with h1 | h1
            · exact hxt h1
            · exact hns h1

lemma nodup_uniqueAux : ∀ (l seen : List String), (uniqueAux seen l).Nodup := by
  intro l
  induction l with
  | nil =>
    intro seen
    simp [uniqueAux]
  | cons t ts ih =>
    intro seen
    simp only [uniqueAux]
    split
    · exact ih seen
    · rw [List.nodup_cons]
      refine ⟨?_, ih (t :: seen)⟩
      intro hmem
      exact ((mem_uniqueAux t ts (t :: seen)).mp hmem).2 (List.mem_cons_self t seen)

/-! ### Claim theorems -/

/-- C1 (amended): the EWMA variance series starts as a copy of the
squared-return series, and for every later slot the source updates
`var[t] = lambda * var[t-1] + (1 - lambda) * squared_return[t]` exactly
when neither `squared_return[t-1]` nor `var[t-1]` is the missing
marker; when either is missing, the update is skipped and `var[t]`
keeps its initialized value — the current squared return — so after a
gap the recursion re-seeds from the current squared return instead of
carrying the missing marker forward. -/
theorem C1_ewma_recurrence (log : ℚ → ℚ) (closes : List FVal) (lam : ℚ) :
    og (ewmaVar lam (squared_returns log closes)) 0
      = og (squared_returns log closes) 0 ∧
    ∀ i, og (ewmaVar lam (squared_returns log closes)) (i + 1) =
      if ¬(og (squared_returns log closes) i).isNone ∧
          ¬(og (ewmaVar lam (squared_returns log closes)) i).isNone then
        oadd (omul (some lam) (og (ewmaVar lam (squared_returns log closes)) i))
          (omul (some (1 - lam)) (og (squared_returns log closes) (i + 1)))
      else og (squared_returns log closes) (i + 1) := by
  constructor
  · rw [ewmaVar_eq_recVar]
    rfl
  · intro i
    rw [ewmaVar_eq_recVar lam (squared_returns log closes) (i + 1),
      ewmaVar_eq_recVar lam (squared_returns log closes) i, recVar]

/-- C1 counterexample: on closes `[1, 1, NaN, 1, 1]` the squared return
at slot 3 is the missing marker and the variance at slot 3 is missing,
so the claim says the missing marker is carried into slot 4; the code
instead leaves slot 4 holding its own (valid) squared return. -/
theorem C1_gap_is_reseeded :
    og (squared_returns idq closesGap) 3 = none ∧
    og (ewmaVar (94/100) (squared_returns idq closesGap)) 3 = none ∧
    og (ewmaVar (94/100) (squared_returns idq closesGap)) 4 = some 1 := by
  norm_num [og, ewmaVar, ewmaScan, ewmaStep, squared_returns, log_return, shift1,
    closesGap, idq_apply, odiv, omul, oadd, nlog, List.range']

/-- C3 (amended): `get_estimator` performs no validation of
`lambda_param`: for any decay factor outside `(0,1)` it still returns a
normal result and raises nothing. -/
theorem C3_no_lambda_validation (log sqrt : ℚ → ℚ) (closes : List FVal)
    (lam tp : ℚ) (clean : Bool) (h : lam ≤ 0 ∨ 1 ≤ lam) :
    (get_estimator log sqrt closes lam tp clean).isOk = true := by
  unfold get_estimator
  cases clean <;> rfl

/-- Witness for C3: `lambda_param = 2` lies outside `(0,1)` and the call
still succeeds. -/
theorem C3_witness :
    ((1 : ℚ) ≤ 2 ∨ False) ∧
    (get_estimator idq idq [some 1, some 2] 2 252 true).isOk = true :=
  ⟨Or.inl (by norm_num),
    C3_no_lambda_validation idq idq [some 1, some 2] 2 252 true (Or.inr (by norm_num))⟩

/-- C3 counterexample: with `lambda_param = 2` (outside `(0,1)`) the
source computes a full EWMA result instead of failing with
`InvalidParameterError`. -/
theorem C3_no_failure_at_two :
    (1 : ℚ) ≤ 2 ∧
    get_estimator idq idq [some 1, some 2] 2 252 true = .ok [some 1008] := by
  refine ⟨by norm_num, ?_⟩
  norm_num [get_estimator, sqret_two, ewvar_two, nsqrt, omul, idq_apply]

/-- C4 (amended): `event_impact_analysis` performs no validation of the
window-day parameters: for nonpositive `pre_window_days` or
`post_window_days` it never fails with `InvalidParameterError` (the only
failure it can produce is the `KeyError` of the empty-event case). -/
theorem C4_no_window_validation (log sqrt : ℚ → ℚ) (a : MacroEventAnalyzer)
    (events : List EventSpec) (pw pq : ℤ) (h : pw ≤ 0 ∨ pq ≤ 0) :
    event_impact_analysis log sqrt a events pw pq ≠ .error .invalidParameter := by
  simp only [event_impact_analysis]
  split <;> simp

/-- Witness for C4: `pre_window_days = -5` is nonpositive and the call
does not produce `InvalidParameterError`. -/
theorem C4_witness :
    ((-5 : ℤ) ≤ 0 ∨ False) ∧
    event_impact_analysis idq idq analyzerSmall eventsOne (-5) 30 ≠
      .error .invalidParameter :=
  ⟨Or.inl (by norm_num),
    C4_no_window_validation idq idq analyzerSmall eventsOne (-5) 30 (Or.inl (by norm_num))⟩

/-- C4 counterexample: with `pre_window_days = -5` the source computes a
full record (the pre-window `[date + 5, date]` is empty, so the
pre-volatility is just the missing marker) instead of failing fast. -/
theorem C4_no_failure_at_negative :
    event_impact_analysis idq idq analyzerSmall eventsOne (-5) 30 =
      .ok [⟨1, "CPI Release", "inflation", none, some 0, none, none, -5, 30⟩] := by
  have hrec : mkImpactRecord idq idq analyzerSmall (-5) 30
      ⟨1, "CPI Release", some "inflation"⟩ =
      ⟨1, "CPI Release", "inflation", none, some 0, none, none, -5, 30⟩ := by
    norm_num [mkImpactRecord, rvw_small_badpre, rvw_small_post, osub, odiv, omul]
  norm_num [event_impact_analysis, eventsOne, hrec, List.mergeSort_singleton]

/-- C5: when the inclusive date window selects fewer than 2 log-return
points, `realized_volatility_window` returns the missing marker (the
function is total: it raises nothing). -/
theorem C5_short_window (log sqrt : ℚ → ℚ) (a : MacroEventAnalyzer)
    (start_date end_date : ℤ)
    (h : (windowReturns log a start_date end_date).length < 2) :
    realized_volatility_window log sqrt a start_date end_date = none := by
  unfold realized_volatility_window
  rw [if_pos h]

/-- Witness for C5: a one-point window yields the missing marker. -/
theorem C5_witness :
    (windowReturns idq analyzerSmall 0 0).length < 2 ∧
    realized_volatility_window idq idq analyzerSmall 0 0 = none :=
  ⟨by decide, C5_short_window idq idq analyzerSmall 0 0 (by decide)⟩

/-- C7: two analyzers sharing the price series but constructed with
different volatility series give identical results from
`realized_volatility_window` and `event_impact_analysis`: the pre/post
figures are recomputed from the price series via log returns and the
passed-in volatility series is never read. -/
theorem C7_volatility_noninterference (log sqrt : ℚ → ℚ)
    (p v1 v2 : List (ℤ × FVal)) (start_date end_date : ℤ)
    (events : List EventSpec) (pw pq : ℤ) :
    realized_volatility_window log sqrt ⟨p, v1⟩ start_date end_date =
      realized_volatility_window log sqrt ⟨p, v2⟩ start_date end_date ∧
    event_impact_analysis log sqrt ⟨p, v1⟩ events pw pq =
      event_impact_analysis log sqrt ⟨p, v2⟩ events pw pq :=
  ⟨rfl, rfl⟩

/-- C9: the EWMA scan writes only into its own copy of the
squared-return series: after the whole loop, the `squared_returns`
component of the loop state is unchanged. -/
theorem C9_loop_writes_only_var (lam : ℚ) (sq : List FVal) :
    (ewmaScan lam sq).squared = sq :=
  (ewmaScan_invariant lam sq (sq.length - 1)).1

/-- C2 (amended): for every non-empty event list the analysis returns
one record per event, sorted ascending by event date; the empty event
list instead raises (the empty frame has no `event_date` column). -/
theorem C2_sorted_when_nonempty (log sqrt : ℚ → ℚ) (a : MacroEventAnalyzer)
    (events : List EventSpec) (pw pq : ℤ) (h : events ≠ []) :
    ∃ recs, event_impact_analysis log sqrt a events pw pq = .ok recs ∧
      List.Sorted (· ≤ ·) (recs.map (·.event_date)) ∧
      recs.length = events.length := by
  obtain ⟨e, es, rfl⟩ : ∃ e es, events = e :: es := by
    cases events with
    | nil => exact absurd rfl h
    | cons e es => exact ⟨e, es, rfl⟩
  refine ⟨((e :: es).map (mkImpactRecord log sqrt a pw pq)).mergeSort byDate,
    rfl, ?_, ?_⟩
  · have hp := List.sorted_mergeSort byDate_trans byDate_total
      ((e :: es).map (mkImpactRecord log sqrt a pw pq))
    exact List.Pairwise.map (fun r : EventImpactRecord => r.event_date)
      (fun x y hxy => of_decide_eq_true hxy) hp
  · rw [List.length_mergeSort, List.length_map]

/-- Witness for C2: two events given in descending date order. -/
theorem C2_witness :
    ∃ recs, event_impact_analysis idq idq analyzerSmall eventsUnordered 30 30 =
        .ok recs ∧
      List.Sorted (· ≤ ·) (recs.map (·.event_date)) ∧
      recs.length = eventsUnordered.length :=
  C2_sorted_when_nonempty idq idq analyzerSmall eventsUnordered 30 30
    (by simp [eventsUnordered])

/-- C2 counterexample: on the empty event list `pd.DataFrame([])` has no
`event_date` column, so `sort_values` raises `KeyError` instead of
returning an empty result of length 0. -/
theorem C2_empty_events_raise :
    event_impact_analysis idq idq analyzerSmall [] 30 30 = .error .keyError := rfl

/-- C6: in every record produced by `event_impact_analysis`, a
pre-volatility of exactly 0 makes the percentage change the missing
marker, and a valid nonzero pre-volatility gives
`(post - pre) / pre * 100` in NaN-propagating arithmetic. -/
theorem C6_pct_zero_guard (log sqrt : ℚ → ℚ) (a : MacroEventAnalyzer)
    (events : List EventSpec) (pw pq : ℤ) (recs : List EventImpactRecord)
    (hok : event_impact_analysis log sqrt a events pw pq = .ok recs)
    (r : EventImpactRecord) (hr : r ∈ recs) :
    (r.pre_volatility = some 0 → r.volatility_change_pct = none) ∧
    (∀ x, r.pre_volatility = some x → x ≠ 0 →
      r.volatility_change_pct =
        omul (odiv (osub r.post_volatility r.pre_volatility) r.pre_volatility)
          (some 100)) := by
  obtain ⟨ev, hev, rfl⟩ := mem_event_impact_analysis hok hr
  constructor
  · intro hzero
    simp only [mkImpactRecord] at hzero ⊢
    rw [hzero]
    simp
  · intro x hx hxne
    simp only [mkImpactRecord] at hx ⊢
    rw [hx, if_pos (fun hcon => hxne (Option.some.inj hcon))]

/-- Witness for C6: the constant-price analyzer yields a record with
pre-volatility exactly 0 and a missing percentage change. -/
theorem C6_witness :
    (recConst.pre_volatility = some 0 → recConst.volatility_change_pct = none) ∧
    (∀ x, recConst.pre_volatility = some x → x ≠ 0 →
      recConst.volatility_change_pct =
        omul (odiv (osub recConst.post_volatility recConst.pre_volatility)
          recConst.pre_volatility) (some 100)) :=
  C6_pct_zero_guard idq idq analyzerConst eventsConst 30 30 [recConst] eia_const
    recConst (List.mem_singleton.mpr rfl)

/-- C10: every record carries the two extra fields `pre_window_days` and
`post_window_days`, equal to the parameters of the call. -/
theorem C10_window_day_fields (log sqrt : ℚ → ℚ) (a : MacroEventAnalyzer)
    (events : List EventSpec) (pw pq : ℤ) (recs : List EventImpactRecord)
    (hok : event_impact_analysis log sqrt a events pw pq = .ok recs)
    (r : EventImpactRecord) (hr : r ∈ recs) :
    r.pre_window_days = pw ∧ r.post_window_days = pq := by
  obtain ⟨ev, hev, rfl⟩ := mem_event_impact_analysis hok hr
  exact ⟨rfl, rfl⟩

/-- Witness for C10: the concrete record of the small analyzer carries
the 30-day window parameters of the call. -/
theorem C10_witness :
    recSmall.pre_window_days = 30 ∧ recSmall.post_window_days = 30 :=
  C10_window_day_fields idq idq analyzerSmall eventsOne 30 30 [recSmall] eia_small
    recSmall (List.mem_singleton.mpr rfl)

/-- C8: the summary has exactly one group per distinct `event_type`
present in the records; each group frequency lies in `[0,1]`; a group
whose pre-volatilities are all missing has a missing mean (the means
skip missing values, so no division by zero occurs). -/
theorem C8_summary_statistics_shape (recs : List EventImpactRecord)
    (h : recs ≠ []) :
    ((event_summary_statistics recs).map Prod.fst).Nodup ∧
    (∀ t, t ∈ (event_summary_statistics recs).map Prod.fst ↔
      t ∈ recs.map (·.event_type)) ∧
    (∀ g ∈ event_summary_statistics recs,
      0 ≤ g.2.vol_increase_frequency ∧ g.2.vol_increase_frequency ≤ 1) ∧
    (∀ g ∈ event_summary_statistics recs,
      (∀ r ∈ recs, r.event_type = g.1 → r.pre_volatility = none) →
      g.2.avg_pre_vol = none) := by
  have hkeys : (event_summary_statistics recs).map Prod.fst =
      uniqueVals (recs.map (·.event_type)) :=
    map_fst_pair (uniqueVals (recs.map (·.event_type))) _
  refine ⟨?_, ?_, ?_, ?_⟩
  · rw [hkeys]
    exact nodup_uniqueAux _ []
  · intro t
    rw [hkeys]
    unfold uniqueVals
    rw [mem_uniqueAux]
    simp
  · intro g hg
    simp only [event_summary_statistics] at hg
    obtain ⟨t, ht, rfl⟩ := List.mem_map.mp hg
    have ht2 : t ∈ uniqueAux [] (recs.map (·.event_type)) := ht
    have htypes : t ∈ recs.map (·.event_type) :=
      ((mem_uniqueAux t (recs.map (·.event_type)) []).mp ht2).1
    obtain ⟨r, hr, hrt⟩ := List.mem_map.mp htypes
    have hrsub : r ∈ subsetFor recs t :=
      List.mem_filter.mpr ⟨hr, decide_eq_true hrt⟩
    have hpos : 0 < ((subsetFor recs t).length : ℚ) := by
      exact_mod_cast List.length_pos.mpr (List.ne_nil_of_mem hrsub)
    constructor
    · exact div_nonneg (Nat.cast_nonneg _) (Nat.cast_nonneg _)
    · show (posChangeCount (subsetFor recs t) : ℚ) /
          ((subsetFor recs t).length : ℚ) ≤ 1
      rw [div_le_one hpos]
      have hle : posChangeCount (subsetFor recs t) ≤ (subsetFor recs t).length :=
        List.length_filter_le _ _
      exact_mod_cast hle
  · intro g hg hmiss
    simp only [event_summary_statistics] at hg
    obtain ⟨t, ht, rfl⟩ := List.mem_map.mp hg
    have hnil : (((subsetFor recs t).map (·.pre_volatility)).filterMap id) = [] := by
      rw [List.filterMap_eq_nil_iff]
      intro a ha
      obtain ⟨r, hr, rfl⟩ := List.mem_map.mp ha
      obtain ⟨hrm, hrt⟩ := List.mem_filter.mp hr
      exact hmiss r hrm (of_decide_eq_true hrt)
    show omean ((subsetFor recs t).map (·.pre_volatility)) = none
    simp only [omean]
    rw [hnil]
    rfl

/-- Witness for C8: two record types, one of which has only missing
pre-volatilities. -/
theorem C8_witness :
    ((event_summary_statistics recsMixed).map Prod.fst).Nodup ∧
    (∀ t, t ∈ (event_summary_statistics recsMixed).map Prod.fst ↔
      t ∈ recsMixed.map (·.event_type)) ∧
    (∀ g ∈ event_summary_statistics recsMixed,
      0 ≤ g.2.vol_increase_frequency ∧ g.2.vol_increase_frequency ≤ 1) ∧
    (∀ g ∈ event_summary_statistics recsMixed,
      (∀ r ∈ recsMixed, r.event_type = g.1 → r.pre_volatility = none) →
      g.2.avg_pre_vol = none) :=
  C8_summary_statistics_shape recsMixed (by simp [recsMixed])

end Vol
